import Mathlib

/-!
Verification development for the DNA-Report variant-matching pipeline
(`app.js`).  JavaScript strings are embedded as `List Char`; every helper
mirrors the corresponding JavaScript operation restricted to the ASCII
inputs the pipeline handles.
-/

namespace DNAReport

/-- JavaScript-style whitespace test (ASCII subset of the regex class). -/
def wsChar (c : Char) : Bool :=
  c == ' ' || c == '\t' || c == '\r' || c == '\n'

/-- `String.prototype.trim`: drop whitespace from both ends. -/
def trimL (s : List Char) : List Char :=
  ((s.dropWhile wsChar).reverse.dropWhile wsChar).reverse

/-- `String.prototype.toLowerCase` (ASCII). -/
def toLowerL (s : List Char) : List Char :=
  s.map Char.toLower

/-- `String.prototype.toUpperCase` (ASCII). -/
def toUpperL (s : List Char) : List Char :=
  s.map Char.toUpper

/-- `String.prototype.split` with a character predicate: keeps empty pieces,
mirroring `split(',')` / `split('\t')` / `split('\n')`. -/
def splitOnP (p : Char → Bool) : List Char → List (List Char)
  | [] => [[]]
  | c :: cs =>
    let r := splitOnP p cs
    if p c then [] :: r
    else
      match r with
      | [] => [[c]]
      | h :: t => (c :: h) :: t

/-- `String.prototype.includes`: substring containment. -/
def isInfixL (sub s : List Char) : Bool :=
  match s with
  | [] => sub.isEmpty
  | _ :: t => sub.isPrefixOf s || isInfixL sub t

/-- The four valid nucleotide letters (upper case). -/
def isBase (c : Char) : Bool :=
  c == 'A' || c == 'C' || c == 'G' || c == 'T'

/-- The set `['A', 'C', 'G', 'T']` of valid single-base tokens. -/
def baseStrs : List (List Char) := [['A'], ['C'], ['G'], ['T']]

/-- `userGeno.toUpperCase().match(/[ACGT]/g)`: the nucleotide letters of a
genotype string, scanned case-insensitively in order. -/
def extractAlleles (g : List Char) : List Char :=
  (toUpperL g).filter isBase

/-- `alt.split(',')`. -/
def splitComma (al : List Char) : List (List Char) :=
  splitOnP (fun c => c == ',') al

/-- `alt.split(',').filter(a => validTokens.has(a.toUpperCase()))`. -/
def altTokens (al : List Char) : List (List Char) :=
  (splitComma al).filter (fun t => baseStrs.contains (toUpperL t))

/-- `new Set(altList.map(a => a.toUpperCase()))` (membership view). -/
def altSetOf (al : List Char) : List (List Char) :=
  (altTokens al).map toUpperL

/-- The unfiltered alternate set used by `getMatchStatus`:
`new Set(alt.split(',').map(a => a.toUpperCase()))`. -/
def rawAltSet (al : List Char) : List (List Char) :=
  (splitComma al).map toUpperL

/-- `genotypeMatchesRefAlt(userGeno, ref, alt)` from `app.js`.  `none`
models a missing (`undefined`/`null`) argument. -/
def genotypeMatchesRefAlt :
    Option (List Char) → Option (List Char) → Option (List Char) → Bool
  | some ug, some r, some al =>
    if ug = [] || r = [] || al = [] then false
    else if !(baseStrs.contains (toUpperL r)) then false
    else if (altTokens al).isEmpty then false
    else
      match extractAlleles ug with
      | [a1, a2] =>
        ((toUpperL r :: altSetOf al).contains [a1]
            && (toUpperL r :: altSetOf al).contains [a2])
          && ((altSetOf al).contains [a1] || (altSetOf al).contains [a2])
      | _ => false
  | _, _, _ => false

def unknownLabel : List Char := ['U', 'n', 'k', 'n', 'o', 'w', 'n']
def altAltLabel : List Char := ['A', 'l', 't', '/', 'A', 'l', 't']
def refAltLabel : List Char := ['R', 'e', 'f', '/', 'A', 'l', 't']
def refRefLabel : List Char := ['R', 'e', 'f', '/', 'R', 'e', 'f']
def otherLabel : List Char := ['O', 't', 'h', 'e', 'r']

/-- `getMatchStatus(userGeno, ref, alt)` from `app.js`. -/
def getMatchStatus :
    Option (List Char) → Option (List Char) → Option (List Char) → List Char
  | some ug, some r, some al =>
    if ug = [] || r = [] || al = [] then unknownLabel
    else
      match extractAlleles ug with
      | [a1, a2] =>
        if (rawAltSet al).contains [a1] && (rawAltSet al).contains [a2] then
          altAltLabel
        else if ((rawAltSet al).contains [a1] && [a2] == toUpperL r)
            || ((rawAltSet al).contains [a2] && [a1] == toUpperL r) then
          refAltLabel
        else if [a1] == toUpperL r && [a2] == toUpperL r then
          refRefLabel
        else
          otherLabel
      | _ => unknownLabel
  | _, _, _ => unknownLabel

/-- C1 spec side: the acceptance condition exactly as the specification
words it — valid single-base reference, at least one valid alternate
token, exactly two extracted letters, both letters in the valid-allele
set, at least one letter in the alternate set. -/
def matchSpecC1 :
    Option (List Char) → Option (List Char) → Option (List Char) → Bool
  | some g, some r, some al =>
    baseStrs.contains (toUpperL r)
      && !(altTokens al).isEmpty
      && (extractAlleles g).length == 2
      && (extractAlleles g).all
          (fun c => (toUpperL r :: altSetOf al).contains [c])
      && (extractAlleles g).any (fun c => (altSetOf al).contains [c])
  | _, _, _ => false

/-- The match predicate agrees everywhere with the spec-side acceptance
condition (shared helper). -/
theorem matches_eq_spec :
    ∀ ug r al, genotypeMatchesRefAlt ug r al = matchSpecC1 ug r al := by
  intro ug r al
  cases ug with
  | none => cases r <;> cases al <;> rfl
  | some g =>
    cases r with
    | none => cases al <;> rfl
    | some r =>
      cases al with
      | none => rfl
      | some al =>
        by_cases hg : g = []
        · subst hg
          simp [genotypeMatchesRefAlt, matchSpecC1, extractAlleles, toUpperL]
        by_cases hr : r = []
        · subst hr
          simp [genotypeMatchesRefAlt, matchSpecC1, toUpperL, baseStrs]
        by_cases hal : al = []
        · subst hal
          simp [genotypeMatchesRefAlt, matchSpecC1, altTokens, splitComma,
            splitOnP, toUpperL, baseStrs]
        simp only [genotypeMatchesRefAlt, matchSpecC1]
        rw [if_neg (by simp [hg, hr, hal])]
        by_cases hA : toUpperL r ∈ baseStrs
        · rw [if_neg (by simp [hA])]
          by_cases hB : altTokens al = []
          · rw [if_pos (by simp [hB])]
            simp [hA, hB]
          · rw [if_neg (by simp [hB])]
            rcases hle : extractAlleles g with _ | ⟨a1, _ | ⟨a2, _ | ⟨a3, rest⟩⟩⟩
            · simp [hle, hA, hB]
            · simp [hle, hA, hB]
            · simp [hle, hA, hB, Bool.and_assoc]
            · simp [hle, hA, hB]
        · rw [if_pos (by simp [hA])]
          simp [hA]

/-- C1: the match predicate accepts a (user genotype, reference record)
pair iff the reference allele is a single valid base, the alternate field
yields at least one valid token, the genotype yields exactly two letters,
both letters lie in the valid-allele set and at least one letter lies in
the alternate set; every missing or empty field yields `false`. -/
theorem C1_match_predicate_iff_spec :
    ∀ ug r al, genotypeMatchesRefAlt ug r al = matchSpecC1 ug r al :=
  matches_eq_spec

/-- A nucleotide letter is one of the four valid single-base tokens. -/
theorem base_mem_baseStrs (c : Char) (h : isBase c = true) : [c] ∈ baseStrs := by
  simp only [isBase, Bool.or_eq_true, beq_iff_eq] at h
  rcases h with ((h | h) | h) | h <;> subst h <;> decide

/-- Membership of a single valid base in the unfiltered uppercased alt
set coincides with membership in the filtered one. -/
theorem contains_upper_filter (c : Char) (hc : [c] ∈ baseStrs) :
    ∀ ts : List (List Char),
      ((ts.filter (fun t => baseStrs.contains (toUpperL t))).map toUpperL).contains [c]
        = (ts.map toUpperL).contains [c] := by
  intro ts
  induction ts with
  | nil => rfl
  | cons t ts ih =>
    rw [List.filter_cons]
    by_cases hp : baseStrs.contains (toUpperL t) = true
    · rw [if_pos hp, List.map_cons, List.map_cons, List.contains_cons,
        List.contains_cons, ih]
    · rw [if_neg hp, List.map_cons, List.contains_cons, ih]
      have hne : ([c] == toUpperL t) = false := by
        rw [beq_eq_false_iff_ne]
        intro he
        apply hp
        rw [← he]
        simpa using hc
      rw [hne, Bool.false_or]

/-- Letters extracted from a genotype are nucleotide letters. -/
theorem extract_isBase (g : List Char) (c : Char) (hc : c ∈ extractAlleles g) :
    isBase c = true :=
  (List.mem_filter.mp hc).2

/-- C2 spec side: the zygosity label exactly as the specification words
it — `Alt/Alt` when both letters are alternates, `Ref/Alt` when exactly
one is an alternate and the other equals the reference, `Ref/Ref` when
both equal the reference, `Other` otherwise. -/
def zygositySpecC2 (a1 a2 : Char) (refU : List Char) (isAltA : Char → Bool) :
    List Char :=
  if isAltA a1 && isAltA a2 then altAltLabel
  else if (isAltA a1 && !(isAltA a2) && ([a2] == refU))
      || (isAltA a2 && !(isAltA a1) && ([a1] == refU)) then refAltLabel
  else if ([a1] == refU) && ([a2] == refU) then refRefLabel
  else otherLabel

/-- The `getMatchStatus` branch chain as a function of its four Boolean
atoms. -/
def statusChain (f1 f2 e1 e2 : Bool) : List Char :=
  if f1 && f2 then altAltLabel
  else if (f1 && e2) || (f2 && e1) then refAltLabel
  else if e1 && e2 then refRefLabel
  else otherLabel

/-- The spec's zygosity branch chain as a function of the same atoms. -/
def specChain (f1 f2 e1 e2 : Bool) : List Char :=
  if f1 && f2 then altAltLabel
  else if (f1 && !f2 && e2) || (f2 && !f1 && e1) then refAltLabel
  else if e1 && e2 then refRefLabel
  else otherLabel

/-- When at least one letter is an alternate, the code's chain agrees
with the spec's chain and never lands on `Ref/Ref`. -/
theorem chain_eq_of_any (f1 f2 e1 e2 : Bool) (hany : f1 = true ∨ f2 = true) :
    statusChain f1 f2 e1 e2 = specChain f1 f2 e1 e2
      ∧ statusChain f1 f2 e1 e2 ≠ refRefLabel := by
  cases f1 <;> cases f2 <;> cases e1 <;> cases e2 <;>
    first
      | (rcases hany with h | h <;> exact absurd h (by decide))
      | exact ⟨by decide, by decide⟩

/-- Bridging: for a single valid base, membership in the unfiltered
uppercased alternate set equals membership in the filtered one. -/
theorem contains_raw_eq_filtered (al : List Char) (c : Char)
    (hc : [c] ∈ baseStrs) :
    (rawAltSet al).contains [c] = (altSetOf al).contains [c] := by
  simp only [rawAltSet, altSetOf, altTokens]
  exact (contains_upper_filter c hc (splitComma al)).symm

/-- C2: for every accepted pair the computed label agrees with the
spec's zygosity case analysis, and the `Ref/Ref` branch is unreachable. -/
theorem C2_zygosity_of_accepted (g r al : List Char) (a1 a2 : Char)
    (hm : genotypeMatchesRefAlt (some g) (some r) (some al) = true)
    (hle : extractAlleles g = [a1, a2]) :
    getMatchStatus (some g) (some r) (some al)
        = zygositySpecC2 a1 a2 (toUpperL r) (fun c => (altSetOf al).contains [c])
      ∧ getMatchStatus (some g) (some r) (some al) ≠ refRefLabel := by
  rw [matches_eq_spec] at hm
  simp only [matchSpecC1, hle] at hm
  simp at hm
  obtain ⟨⟨⟨hA, hB⟩, hv1, hv2⟩, hany⟩ := hm
  have hb1 : isBase a1 = true := extract_isBase g a1 (by rw [hle]; simp)
  have hb2 : isBase a2 = true := extract_isBase g a2 (by rw [hle]; simp)
  have hc1 : [a1] ∈ baseStrs := base_mem_baseStrs a1 hb1
  have hc2 : [a2] ∈ baseStrs := base_mem_baseStrs a2 hb2
  have hg : g ≠ [] := by
    intro h; subst h
    simp [extractAlleles, toUpperL] at hle
  have hr : r ≠ [] := by
    intro h; subst h
    simp [toUpperL, baseStrs] at hA
  have hal : al ≠ [] := by
    intro h; subst h
    simp [altTokens, splitComma, splitOnP, toUpperL, baseStrs] at hB
  have hstat : getMatchStatus (some g) (some r) (some al)
      = statusChain ((rawAltSet al).contains [a1]) ((rawAltSet al).contains [a2])
          ([a1] == toUpperL r) ([a2] == toUpperL r) := by
    simp only [getMatchStatus, hle]
    rw [if_neg (by simp [hg, hr, hal])]
    rfl
  have hspec : zygositySpecC2 a1 a2 (toUpperL r)
        (fun c => (altSetOf al).contains [c])
      = specChain ((altSetOf al).contains [a1]) ((altSetOf al).contains [a2])
          ([a1] == toUpperL r) ([a2] == toUpperL r) := rfl
  rw [hstat, hspec, contains_raw_eq_filtered al a1 hc1,
    contains_raw_eq_filtered al a2 hc2]
  exact chain_eq_of_any _ _ _ _ (by simpa using hany)

/-- The multi-allelic alternate field `G,T` of the C3 scenario. -/
def gtAltField : List Char := ['G', ',', 'T']

/-- C3 counterexample: with reference allele `A`, alternate field `G,T`
and user genotype `GT`, the pair is accepted but the zygosity label is
`Alt/Alt`, not `Other` as the claim states. -/
theorem C3_counterexample :
    genotypeMatchesRefAlt (some ['G', 'T']) (some ['A']) (some gtAltField) = true
      ∧ getMatchStatus (some ['G', 'T']) (some ['A']) (some gtAltField) = altAltLabel
      ∧ altAltLabel ≠ otherLabel := by
  decide

/-- C3 amended: for any single-base reference allele and any genotype
whose extracted letters are `G` and `T`, the pair with alternate field
`G,T` is accepted and the emitted zygosity label is `Alt/Alt`. -/
theorem C3_amended_altalt (r g : List Char)
    (hA : toUpperL r ∈ baseStrs)
    (hle : extractAlleles g = ['G', 'T']) :
    genotypeMatchesRefAlt (some g) (some r) (some gtAltField) = true
      ∧ getMatchStatus (some g) (some r) (some gtAltField) = altAltLabel := by
  have hg : g ≠ [] := by
    intro h; subst h
    simp [extractAlleles, toUpperL] at hle
  have hr : r ≠ [] := by
    intro h; subst h
    simp [toUpperL, baseStrs] at hA
  constructor
  · simp only [genotypeMatchesRefAlt, hle]
    rw [if_neg (by simp [hg, hr, gtAltField])]
    rw [if_neg (by simp [hA])]
    rw [if_neg (by decide)]
    simp [altSetOf, altTokens, splitComma, splitOnP, toUpperL, baseStrs,
      gtAltField]
  · simp only [getMatchStatus, hle]
    rw [if_neg (by simp [hg, hr, gtAltField])]
    simp [rawAltSet, splitComma, splitOnP, toUpperL, gtAltField]

/-- C3 amended, witness at `ref = A`, genotype `GT`. -/
theorem C3_amended_altalt_witness :
    genotypeMatchesRefAlt (some ['G', 'T']) (some ['A']) (some gtAltField) = true
      ∧ getMatchStatus (some ['G', 'T']) (some ['A']) (some gtAltField)
          = altAltLabel :=
  C3_amended_altalt ['A'] ['G', 'T'] (by decide) (by decide)

/-! ### Genotype file parser (`parse23andMeFile`) -/

/-- `raw.replace(/\r$/, '')`: drop one trailing carriage return. -/
def stripCRL (s : List Char) : List Char :=
  if s.getLast? = some '\r' then s.dropLast else s

/-- `trimmed.replace(/^#+\s*/, '')`: drop a leading run of `#` plus the
following whitespace run (only when at least one `#` is present). -/
def stripHash (s : List Char) : List Char :=
  match s with
  | '#' :: _ => (s.dropWhile (fun c => c == '#')).dropWhile wsChar
  | _ => s

/-- One quote character. -/
def quoteChar (c : Char) : Bool :=
  c == '"' || c == '\''

/-- `h.replace(/^["']|["']$/g, '')`: drop one leading and one trailing
quote character. -/
def stripQuotes (s : List Char) : List Char :=
  let s1 := match s with
    | c :: t => if quoteChar c then t else s
    | [] => []
  match s1.getLast? with
  | some c => if quoteChar c then s1.dropLast else s1
  | none => s1

/-- The inferred field delimiter: tab, comma, or runs of whitespace. -/
inductive Delim where
  | tab
  | comma
  | ws
deriving DecidableEq

/-- Detect the delimiter from the header line: prefer tab, else comma,
else whitespace runs. -/
def inferDelim (headerLine : List Char) : Delim :=
  if isInfixL ['\t'] headerLine then .tab
  else if isInfixL [','] headerLine then .comma
  else .ws

/-- Split one line into fields by the inferred delimiter (`split('\t')`,
`split(',')`, or `split(/\s+/)` on a trimmed line). -/
def splitLine (d : Delim) (line : List Char) : List (List Char) :=
  match d with
  | .tab => splitOnP (fun c => c == '\t') line
  | .comma => splitOnP (fun c => c == ',') line
  | .ws => (splitOnP wsChar line).filter (fun t => t ≠ [])

/-- `cols[i] ?? ''`: field access with the empty string for an absent
index. -/
def colAt (cols : List (List Char)) (i : Nat) : List Char :=
  (cols.get? i).getD []

/-- Normalize one header token: strip comment markers, surrounding
quotes, whitespace; lowercase. -/
def normToken (t : List Char) : List Char :=
  toLowerL (trimL (stripQuotes (stripHash t)))

/-- The normalized header tokens of the header line. -/
def headersOf (d : Delim) (headerLine : List Char) : List (List Char) :=
  (splitLine d headerLine).map normToken

def rsidStr : List Char := ['r', 's', 'i', 'd']
def genotypeStr : List Char := ['g', 'e', 'n', 'o', 't', 'y', 'p', 'e']
def chromosomeStr : List Char := ['c', 'h', 'r', 'o', 'm', 'o', 's', 'o', 'm', 'e']
def positionStr : List Char := ['p', 'o', 's', 'i', 't', 'i', 'o', 'n']

/-- `h === 'rsid' || h.endsWith('rsid')`. -/
def rsidHeaderPred (h : List Char) : Bool :=
  h == rsidStr || rsidStr.isSuffixOf h

/-- Header-line recognition: non-blank, and after stripping leading `#`
markers the lowercased line starts with `rsid` and contains `genotype`
or `chromosome`. Returns the header line without the leading markers. -/
def headerOf (raw : List Char) : Option (List Char) :=
  if raw = [] then none
  else
    let trimmed := trimL (stripCRL raw)
    if trimmed = [] then none
    else
      let noHash := stripHash trimmed
      if rsidStr.isPrefixOf (toLowerL noHash)
          && (isInfixL genotypeStr (toLowerL noHash)
            || isInfixL chromosomeStr (toLowerL noHash)) then
        some noHash
      else none

/-- Scan the lines top-to-bottom for the first header line; return its
index and the stripped header line. -/
def findHeader : List (List Char) → Option (Nat × List Char)
  | [] => none
  | l :: ls =>
    match headerOf l with
    | some h => some (0, h)
    | none =>
      match findHeader ls with
      | some (i, h) => some (i + 1, h)
      | none => none

/-- A parsed user genotype record (fields as stored by the parser). -/
structure UserRecord where
  genotype : List Char
  chromosome : List Char
  position : List Char
deriving DecidableEq, Inhabited

/-- The case-sensitive no-call sentinels. -/
def noCalls : List (List Char) :=
  [['-', '-'], ['I', 'I'], ['D', 'D'], ['N', 'N']]

def rsStr : List Char := ['r', 's']
def iStr : List Char := ['i']

/-- Data-row line preparation: skip empty lines, trim, skip comment
lines. -/
def prepLine (raw : List Char) : Option (List Char) :=
  if raw = [] then none
  else
    let line := trimL (stripCRL raw)
    if line = [] then none
    else if line.head? = some '#' then none
    else some line

/-- `cols[rsidIndex].trim().toLowerCase()` for one row. -/
def rowRsid (d : Delim) (ri : Nat) (line : List Char) : List Char :=
  toLowerL (trimL (colAt (splitLine d line) ri))

/-- `cols[genotypeIndex].trim()` for one row. -/
def rowGeno (d : Delim) (gi : Nat) (line : List Char) : List Char :=
  trimL (colAt (splitLine d line) gi)

/-- Process one prepared data row: extract and normalize the identifier
and genotype fields and accept the row only if the identifier starts
with `rs`/`i` and the genotype is a non-sentinel non-empty token. -/
def processRow (d : Delim) (ri gi : Nat) (cIdx pIdx : Option Nat)
    (line : List Char) : Option (List Char × UserRecord) :=
  let cols := splitLine d line
  let rsid := rowRsid d ri line
  let genotype := rowGeno d gi line
  if !rsid.isEmpty && !genotype.isEmpty
      && (rsStr.isPrefixOf rsid || iStr.isPrefixOf rsid) then
    if noCalls.contains genotype then none
    else
      some (rsid,
        { genotype := genotype
          chromosome := match cIdx with
            | some i => trimL (colAt cols i)
            | none => []
          position := match pIdx with
            | some i => trimL (colAt cols i)
            | none => [] })
  else none

/-- The result mapping, with JavaScript `Map` semantics. -/
abbrev GenoMap : Type := List (List Char × UserRecord)

/-- `Map.prototype.set`: replace in place if the key exists, else append. -/
def mapSet (m : GenoMap) (k : List Char) (v : UserRecord) : GenoMap :=
  if m.any (fun p => p.1 == k) then
    m.map (fun p => if p.1 == k then (k, v) else p)
  else m ++ [(k, v)]

/-- `Map.prototype.get`. -/
def mapLookup (m : GenoMap) (k : List Char) : Option UserRecord :=
  (m.find? (fun p => p.1 == k)).map (fun p => p.2)

/-- The data-row loop over the lines following the header. -/
def parseRows (d : Delim) (ri gi : Nat) (cIdx pIdx : Option Nat)
    (rows : List (List Char)) : GenoMap :=
  rows.foldl
    (fun m raw =>
      match prepLine raw with
      | none => m
      | some line =>
        match processRow d ri gi cIdx pIdx line with
        | none => m
        | some (k, v) => mapSet m k v)
    []

/-- The fatal parser errors. -/
inductive ParseError where
  | noHeaderFound
  | missingRequiredColumns
deriving DecidableEq

deriving instance DecidableEq for Except

/-- `parse23andMeFile`: split into lines, find the header, infer the
delimiter, resolve columns, then parse the data rows. -/
def parse23andMeFile (text : List Char) : Except ParseError GenoMap :=
  let lines := splitOnP (fun c => c == '\n') text
  match findHeader lines with
  | none => .error .noHeaderFound
  | some (idx, headerLine) =>
    let d := inferDelim headerLine
    let headers := headersOf d headerLine
    match headers.findIdx? rsidHeaderPred,
        headers.findIdx? (fun h => isInfixL genotypeStr h) with
    | some ri, some gi =>
      .ok (parseRows d ri gi
        (headers.findIdx? (fun h => isInfixL chromosomeStr h))
        (headers.findIdx? (fun h => isInfixL positionStr h))
        (lines.drop (idx + 1)))
    | _, _ => .error .missingRequiredColumns

/-- C4 spec side: the row-acceptance condition exactly as the
specification words it — lowercased identifier non-empty and starting
with `rs` or `i`, genotype token non-empty and not a no-call sentinel. -/
def rowAcceptSpec (d : Delim) (ri gi : Nat) (line : List Char) : Bool :=
  !(rowRsid d ri line).isEmpty
    && (rsStr.isPrefixOf (rowRsid d ri line) || iStr.isPrefixOf (rowRsid d ri line))
    && !(rowGeno d gi line).isEmpty
    && !(noCalls.contains (rowGeno d gi line))

/-- `Map.set` followed by `Map.get` on the same key returns the value
just written (last write wins). -/
theorem mapLookup_mapSet :
    ∀ (m : GenoMap) (k : List Char) (v : UserRecord),
      mapLookup (mapSet m k v) k = some v := by
  intro m k v
  induction m with
  | nil => simp [mapSet, mapLookup, List.find?]
  | cons p t ih =>
    by_cases hp : (p.1 == k) = true
    · have hp' : p.1 = k := by simpa using hp
      have hany : (p :: t).any (fun q => q.1 == k) = true := by simp [hp']
      simp [mapSet, hany, mapLookup, List.find?, hp']
    · by_cases ht : t.any (fun q => q.1 == k) = true
      · have hany : (p :: t).any (fun q => q.1 == k) = true := by simp [ht]
        have ih' := ih
        rw [mapSet, if_pos ht] at ih'
        rw [mapSet, if_pos hany]
        simpa [mapLookup, List.find?, hp] using ih'
      · have hnone : (p :: t).find? (fun q => q.1 == k) = none := by
          rw [List.find?_eq_none]
          intro x hx
          rcases List.mem_cons.mp hx with rfl | hx2
          · exact fun hxk => hp hxk
          · exact fun hxk => ht (List.any_eq_true.mpr ⟨x, hx2, hxk⟩)
        rw [mapSet, if_neg (by simp [hp, ht])]
        have htn : List.find? (fun q => q.1 == k) t = none := by
          rw [List.find?_eq_none] at hnone ⊢
          exact fun x hx => hnone x (List.mem_cons_of_mem p hx)
        simp [mapLookup, List.find?_append, List.find?, hp, htn]

/-- C4: a data row is stored iff it passes the spec's acceptance
condition; the stored key and genotype are the normalized tokens, and a
repeated key keeps the last value written. -/
theorem C4_row_stored_iff :
    ∀ (d : Delim) (ri gi : Nat) (cIdx pIdx : Option Nat) (line : List Char),
      ((processRow d ri gi cIdx pIdx line).isSome = rowAcceptSpec d ri gi line)
      ∧ (∀ k v, processRow d ri gi cIdx pIdx line = some (k, v) →
          k = rowRsid d ri line ∧ v.genotype = rowGeno d gi line)
      ∧ (∀ (m : GenoMap) (k : List Char) (v : UserRecord),
          mapLookup (mapSet m k v) k = some v) := by
  intro d ri gi cIdx pIdx line
  refine ⟨?_, ?_, fun m k v => mapLookup_mapSet m k v⟩
  · cases h1 : (rowRsid d ri line).isEmpty <;>
      cases h2 : (rowGeno d gi line).isEmpty <;>
      cases h3 : (rsStr.isPrefixOf (rowRsid d ri line)
          || iStr.isPrefixOf (rowRsid d ri line)) <;>
      by_cases h4 : rowGeno d gi line ∈ noCalls <;>
      simp [processRow, rowAcceptSpec, h1, h2, h3, h4]
  · intro k v h
    simp only [processRow] at h
    by_cases h4 : rowGeno d gi line ∈ noCalls <;> simp [h4] at h
    rcases h with ⟨hcond, hk, hv⟩
    exact ⟨hk.symm, by rw [← hv]⟩

/-- C9: a row whose field list is shorter than the resolved identifier
or genotype column index is silently skipped (the missing field reads as
the empty string and fails acceptance). -/
theorem C9_short_row_skipped (d : Delim) (ri gi : Nat)
    (cIdx pIdx : Option Nat) (line : List Char)
    (h : (splitLine d line).length ≤ ri ∨ (splitLine d line).length ≤ gi) :
    processRow d ri gi cIdx pIdx line = none := by
  rcases h with h | h
  · have hc : colAt (splitLine d line) ri = [] := by
      simp [colAt, List.getElem?_eq_none h]
    simp [processRow, rowRsid, hc, trimL, toLowerL]
  · have hc : colAt (splitLine d line) gi = [] := by
      simp [colAt, List.getElem?_eq_none h]
    simp [processRow, rowGeno, hc, trimL]

/-- C9 witness: a tab-delimited row with a single field and genotype
column 1 is skipped. -/
theorem C9_short_row_skipped_witness :
    processRow .tab 0 1 none none ['r', 's', '1'] = none :=
  C9_short_row_skipped .tab 0 1 none none ['r', 's', '1'] (by decide)

/-- C4 witness: a concrete tab-delimited row is stored. -/
theorem C4_row_stored_iff_witness :
    (processRow .tab 0 1 none none ['r', 's', '1', '\t', 'A', 'G']).isSome = true :=
  (C4_row_stored_iff .tab 0 1 none none ['r', 's', '1', '\t', 'A', 'G']).1.trans
    (by decide)

/-- ASCII lowercasing is idempotent (character level). -/
theorem char_toLower_idem (c : Char) : c.toLower.toLower = c.toLower := by
  by_cases h : c.toNat ≥ 65 ∧ c.toNat ≤ 90
  · have h1 : c.toLower = Char.ofNat (c.toNat + 32) := by
      unfold Char.toLower
      rw [if_pos h]
    have hv : (Char.ofNat (c.toNat + 32)).toNat = c.toNat + 32 := by
      have hvalid : (c.toNat + 32).isValidChar := Or.inl (by omega)
      unfold Char.ofNat
      rw [dif_pos hvalid]
      rfl
    rw [h1]
    unfold Char.toLower
    rw [if_neg (by rw [hv]; omega)]
  · have h1 : c.toLower = c := by
      unfold Char.toLower
      rw [if_neg h]
    rw [h1, h1]

/-- ASCII lowercasing is idempotent (string level). -/
theorem toLowerL_idem (s : List Char) : toLowerL (toLowerL s) = toLowerL s := by
  simp [toLowerL, List.map_map, Function.comp_def, char_toLower_idem]

/-- Entries of `mapSet m k v` come from `m` or are the new pair. -/
theorem mem_mapSet (m : GenoMap) (k : List Char) (v : UserRecord)
    (x : List Char × UserRecord) (hx : x ∈ mapSet m k v) :
    x = (k, v) ∨ x ∈ m := by
  unfold mapSet at hx
  by_cases h : m.any (fun p => p.1 == k) = true
  · rw [if_pos h] at hx
    rcases List.mem_map.mp hx with ⟨y, hy, hxy⟩
    by_cases hyk : y.1 = k
    · left
      rw [← hxy]
      simp [hyk]
    · right
      rw [← hxy]
      simpa [hyk] using hy
  · rw [if_neg h] at hx
    rcases List.mem_append.mp hx with hx | hx
    · right
      exact hx
    · left
      simpa using hx

/-- A stored row satisfies the parser-enforced invariants. -/
theorem processRow_invariant (d : Delim) (ri gi : Nat)
    (cIdx pIdx : Option Nat) (line : List Char) (k : List Char)
    (v : UserRecord) (h : processRow d ri gi cIdx pIdx line = some (k, v)) :
    toLowerL k = k ∧ (rsStr <+: k ∨ iStr <+: k)
      ∧ v.genotype ≠ [] ∧ v.genotype ∉ noCalls := by
  simp only [processRow] at h
  by_cases h4 : rowGeno d gi line ∈ noCalls <;> simp [h4] at h
  rcases h with ⟨⟨⟨hne1, hne2⟩, hpre⟩, hk, hv⟩
  refine ⟨?_, ?_, ?_, ?_⟩
  · rw [← hk]
    exact toLowerL_idem _
  · rw [← hk]
    exact hpre
  · rw [← hv]
    simpa using hne2
  · rw [← hv]
    exact h4

/-- C5 claim side: a genotype stripped to its nucleotide letters has
exactly two letters. -/
def twoLetterInvariant (v : UserRecord) : Bool :=
  (extractAlleles v.genotype).length == 2

/-- C5 counterexample: the parser stores the row `rs1 / AGG`, whose
genotype has three nucleotide letters, so the claimed two-letter
invariant fails on a stored record. -/
theorem C5_counterexample :
    parse23andMeFile
        ['r', 's', 'i', 'd', '\t', 'g', 'e', 'n', 'o', 't', 'y', 'p', 'e', '\n',
          'r', 's', '1', '\t', 'A', 'G', 'G']
      = .ok [(['r', 's', '1'], ⟨['A', 'G', 'G'], [], []⟩)]
    ∧ twoLetterInvariant ⟨['A', 'G', 'G'], [], []⟩ = false := by
  decide

/-- C5 amended: every stored record has a lowercase key starting with
`rs` or `i`, and a non-empty, non-sentinel genotype (the parser does not
enforce the two-letter property). -/
theorem C5_stored_record_invariant :
    ∀ (d : Delim) (ri gi : Nat) (cIdx pIdx : Option Nat)
      (rows : List (List Char)) (k : List Char) (v : UserRecord),
      (k, v) ∈ parseRows d ri gi cIdx pIdx rows →
        toLowerL k = k
          ∧ (rsStr <+: k ∨ iStr <+: k)
          ∧ v.genotype ≠ []
          ∧ v.genotype ∉ noCalls := by
  intro d ri gi cIdx pIdx rows
  suffices h : ∀ acc : GenoMap,
      (∀ k v, (k, v) ∈ acc →
        toLowerL k = k
          ∧ (rsStr <+: k ∨ iStr <+: k)
          ∧ v.genotype ≠ [] ∧ v.genotype ∉ noCalls) →
      ∀ k v, (k, v) ∈ rows.foldl
          (fun m raw =>
            match prepLine raw with
            | none => m
            | some line =>
              match processRow d ri gi cIdx pIdx line with
              | none => m
              | some (k, v) => mapSet m k v)
          acc →
        toLowerL k = k
          ∧ (rsStr <+: k ∨ iStr <+: k)
          ∧ v.genotype ≠ [] ∧ v.genotype ∉ noCalls by
    intro k v hm
    exact h [] (by simp) k v hm
  induction rows with
  | nil =>
    intro acc hacc k v hm
    exact hacc k v hm
  | cons row rows ih =>
    intro acc hacc k v hm
    rw [List.foldl_cons] at hm
    refine ih _ ?_ k v hm
    intro k' v' hm'
    rcases hrow : prepLine row with _ | line
    · simp only [hrow] at hm'
      exact hacc k' v' hm'
    · simp only [hrow] at hm'
      rcases hpr : processRow d ri gi cIdx pIdx line with _ | ⟨k2, v2⟩
      · simp only [hpr] at hm'
        exact hacc k' v' hm'
      · simp only [hpr] at hm'
        rcases mem_mapSet acc k2 v2 (k', v') hm' with heq | hmem
        · cases heq
          exact processRow_invariant d ri gi cIdx pIdx line k' v' hpr
        · exact hacc k' v' hmem

/-- C5 amended, witness on a concrete stored row. -/
theorem C5_stored_record_invariant_witness :
    toLowerL ['r', 's', '1'] = ['r', 's', '1']
      ∧ (rsStr <+: ['r', 's', '1'] ∨ iStr <+: ['r', 's', '1'])
      ∧ (['A', 'G'] : List Char) ≠ [] ∧ ['A', 'G'] ∉ noCalls :=
  C5_stored_record_invariant .tab 0 1 none none
    [['r', 's', '1', '\t', 'A', 'G']] ['r', 's', '1'] ⟨['A', 'G'], [], []⟩
    (by decide)

/-- C2 witness at genotype `AG`, ref `A`, alt `G`. -/
theorem C2_zygosity_witness :
    getMatchStatus (some ['A', 'G']) (some ['A']) (some ['G'])
        = zygositySpecC2 'A' 'G' (toUpperL ['A'])
            (fun c => (altSetOf ['G']).contains [c])
      ∧ getMatchStatus (some ['A', 'G']) (some ['A']) (some ['G']) ≠ refRefLabel :=
  C2_zygosity_of_accepted ['A', 'G'] ['A'] ['G'] 'A' 'G' (by decide) (by decide)

/-- The header scan returns `none` exactly when no line is a header
line. -/
theorem findHeader_eq_none_iff :
    ∀ lines : List (List Char),
      findHeader lines = none ↔ ∀ l ∈ lines, headerOf l = none := by
  intro lines
  induction lines with
  | nil => simp [findHeader]
  | cons l ls ih =>
    rcases h : headerOf l with _ | hh
    · rcases hf : findHeader ls with _ | p
      · simp only [findHeader, h, hf]
        constructor
        · intro _ l' hl'
          rcases List.mem_cons.mp hl' with rfl | hl2
          · exact h
          · exact (ih.mp hf) l' hl2
        · intro _
          trivial
      · simp only [findHeader, h, hf]
        constructor
        · intro hcontra
          exact absurd hcontra (by simp)
        · intro hall
          exact absurd
            (hf.symm.trans
              (ih.mpr (fun l' hl' => hall l' (List.mem_cons_of_mem l hl'))))
            (by simp)
    · simp only [findHeader, h]
      constructor
      · intro hcontra
        exact absurd hcontra (by simp)
      · intro hall
        exact absurd (h.symm.trans (hall l (List.mem_cons_self l ls))) (by simp)

/-- The header scan returns the first header line: the returned index
holds a header line and every earlier line is not one. -/
theorem findHeader_first :
    ∀ (lines : List (List Char)) (i : Nat) (hl : List Char),
      findHeader lines = some (i, hl) →
        (∃ l, lines[i]? = some l ∧ headerOf l = some hl)
          ∧ ∀ j l', j < i → lines[j]? = some l' → headerOf l' = none := by
  intro lines
  induction lines with
  | nil =>
    intro i hl h
    simp [findHeader] at h
  | cons l ls ih =>
    intro i hl h
    rcases hh : headerOf l with _ | hh0
    · simp only [findHeader, hh] at h
      rcases hf : findHeader ls with _ | p
      · rw [hf] at h
        simp at h
      · rw [hf] at h
        simp only [Option.some.injEq, Prod.mk.injEq] at h
        obtain ⟨hi, hhl⟩ := h
        obtain ⟨⟨l0, hget, hhead⟩, hbefore⟩ := ih p.1 p.2 (by rw [hf])
        constructor
        · refine ⟨l0, ?_, by rw [← hhl]; exact hhead⟩
          rw [← hi]
          simpa using hget
        · intro j l' hj hget'
          cases j with
          | zero =>
            simp only [List.getElem?_cons_zero, Option.some.injEq] at hget'
            rw [← hget']
            exact hh
          | succ j0 =>
            rw [List.getElem?_cons_succ] at hget'
            exact hbefore j0 l' (by omega) hget'
    · simp only [findHeader, hh, Option.some.injEq, Prod.mk.injEq] at h
      obtain ⟨hi, hhl⟩ := h
      constructor
      · refine ⟨l, ?_, by rw [← hhl]; exact hh⟩
        rw [← hi]
        simp
      · intro j l' hj hget'
        rw [← hi] at hj
        exact absurd hj (by omega)

/-- The parse fails with `NoHeaderFound` exactly when no line is a
header line. -/
theorem parse_noHeader_iff (text : List Char) :
    parse23andMeFile text = .error .noHeaderFound ↔
      ∀ l ∈ splitOnP (fun c => c == '\n') text, headerOf l = none := by
  rw [← findHeader_eq_none_iff]
  constructor
  · intro h
    rcases hopt : findHeader (splitOnP (fun c => c == '\n') text) with _ | p
    · rfl
    · exfalso
      simp only [parse23andMeFile, hopt] at h
      rcases hr : (headersOf (inferDelim p.2) p.2).findIdx? rsidHeaderPred
          with _ | ri <;>
        rcases hg : (headersOf (inferDelim p.2) p.2).findIdx?
            (fun h => isInfixL genotypeStr h) with _ | gi <;>
        simp only [hr, hg] at h <;> simp at h
  · intro h
    simp [parse23andMeFile, h]

/-- The parse fails with `MissingRequiredColumns` exactly when a header
was found but the rsid or genotype column cannot be resolved. -/
theorem parse_missing_iff (text : List Char) :
    parse23andMeFile text = .error .missingRequiredColumns ↔
      ∃ i hl,
        findHeader (splitOnP (fun c => c == '\n') text) = some (i, hl)
          ∧ ((headersOf (inferDelim hl) hl).findIdx? rsidHeaderPred = none
            ∨ (headersOf (inferDelim hl) hl).findIdx?
                (fun h => isInfixL genotypeStr h) = none) := by
  rcases hopt : findHeader (splitOnP (fun c => c == '\n') text) with _ | ⟨i, hl⟩
  · simp only [parse23andMeFile, hopt]
    constructor
    · intro h
      exact absurd h (by simp)
    · rintro ⟨i, hl, hsome, -⟩
      exact absurd hsome (by simp)
  · simp only [parse23andMeFile, hopt]
    rcases hr : (headersOf (inferDelim hl) hl).findIdx? rsidHeaderPred
        with _ | ri <;>
      rcases hg : (headersOf (inferDelim hl) hl).findIdx?
          (fun h => isInfixL genotypeStr h) with _ | gi
    · exact ⟨fun _ => ⟨i, hl, rfl, Or.inl hr⟩, fun _ => rfl⟩
    · exact ⟨fun _ => ⟨i, hl, rfl, Or.inl hr⟩, fun _ => rfl⟩
    · exact ⟨fun _ => ⟨i, hl, rfl, Or.inr hg⟩, fun _ => rfl⟩
    · constructor
      · intro hx
        exact absurd hx (by simp)
      · rintro ⟨i', hl', hsome, hcols⟩
        cases Option.some.inj hsome
        rcases hcols with hcol | hcol
        · exact absurd (hr.symm.trans hcol) (by simp)
        · exact absurd (hg.symm.trans hcol) (by simp)

/-- C8 (amended): `NoHeaderFound` iff no line, after stripping leading
`#` markers, starts with `rsid` (case-insensitively) while containing
`genotype` or `chromosome`; the first such line is used as header; with
a header, `MissingRequiredColumns` iff the rsid column (exact/suffix
match) or the genotype column (substring match) cannot be resolved. -/
theorem C8_parse_errors :
    ∀ text : List Char,
      (parse23andMeFile text = .error .noHeaderFound ↔
        ∀ l ∈ splitOnP (fun c => c == '\n') text, headerOf l = none)
      ∧ (∀ i hl,
          findHeader (splitOnP (fun c => c == '\n') text) = some (i, hl) →
            (∃ l, (splitOnP (fun c => c == '\n') text)[i]? = some l
                ∧ headerOf l = some hl)
              ∧ ∀ j l', j < i →
                  (splitOnP (fun c => c == '\n') text)[j]? = some l' →
                    headerOf l' = none)
      ∧ (parse23andMeFile text = .error .missingRequiredColumns ↔
          ∃ i hl,
            findHeader (splitOnP (fun c => c == '\n') text) = some (i, hl)
              ∧ ((headersOf (inferDelim hl) hl).findIdx? rsidHeaderPred = none
                ∨ (headersOf (inferDelim hl) hl).findIdx?
                    (fun h => isInfixL genotypeStr h) = none)) :=
  fun text =>
    ⟨parse_noHeader_iff text,
      fun i hl h => findHeader_first _ i hl h,
      parse_missing_iff text⟩

/-- C8 witness: a file with no header line fails with `NoHeaderFound`. -/
theorem C8_parse_errors_witness :
    parse23andMeFile ['h', 'i'] = .error .noHeaderFound :=
  (C8_parse_errors ['h', 'i']).1.mpr (by decide)

/-- The first token of a line (split on whitespace or commas). -/
def firstTokenOf (s : List Char) : List Char :=
  ((splitOnP (fun c => wsChar c || c == ',') s).filter
    (fun t => t ≠ [])).headD []

/-- C8 claim side as stated: the line's first token, lowercased, is
exactly `rsid`, and the line contains `genotype` or `chromosome`. -/
def headerLineFirstTokenPred (raw : List Char) : Bool :=
  if raw = [] then false
  else
    let trimmed := trimL (stripCRL raw)
    if trimmed = [] then false
    else
      let noHash := stripHash trimmed
      (firstTokenOf (toLowerL noHash) == rsidStr)
        && (isInfixL genotypeStr (toLowerL noHash)
          || isInfixL chromosomeStr (toLowerL noHash))

/-- The C8 counterexample input: `rsidnum rsid genotype`. -/
def c8Text : List Char :=
  ['r', 's', 'i', 'd', 'n', 'u', 'm', ' ', 'r', 's', 'i', 'd', ' ', 'g', 'e',
    'n', 'o', 't', 'y', 'p', 'e']

/-- C8 counterexample: no line of the input has `rsid` as its first
token, yet the parser accepts the line as a header (it only requires the
line to start with `rsid`), so it does not fail with `NoHeaderFound` —
the claim's iff is false as stated. -/
theorem C8_counterexample :
    ((splitOnP (fun c => c == '\n') c8Text).all
        (fun l => !(headerLineFirstTokenPred l))) = true
      ∧ parse23andMeFile c8Text ≠ .error .noHeaderFound := by
  decide

/-! ### Variant matcher (`matchVariants`) -/

/-- One reference record of the ClinVar index (short field names as in
the serialized artifact; `none` models an absent field).  The disease
name `d` is modelled as present since the report assembler sorts by it. -/
structure ClinvarRecord where
  r : Option (List Char)
  a : Option (List Char)
  c : Option (List Char)
  p : Option (List Char)
  g : Option (List Char)
  d : List Char
  s : Option (List Char)
  v : Option (List Char)
  al : Option (List Char)
  h : Option (List Char)
  rv : Option (List Char)
  mc : Option (List Char)
  o : Option (List Char)
deriving DecidableEq

def pathogenicLabel : List Char :=
  ['P', 'a', 't', 'h', 'o', 'g', 'e', 'n', 'i', 'c']
def likelyPathogenicLabel : List Char :=
  ['L', 'i', 'k', 'e', 'l', 'y', ' ', 'p', 'a', 't', 'h', 'o', 'g', 'e', 'n',
    'i', 'c']
def clnsigFive : List Char := ['5']
def clnsigFour : List Char := ['4']

/-- A finding record as pushed by `matchVariants` (`match` is renamed
`matchLabel`, as `match` is reserved). -/
structure Finding where
  rsid : List Char
  userGenotype : List Char
  chromosome : Option (List Char)
  position : Option (List Char)
  gene : Option (List Char)
  disease : List Char
  clnsig : Option (List Char)
  significance : List Char
  ref : Option (List Char)
  alt : Option (List Char)
  matchLabel : List Char
  variationId : Option (List Char)
  alleleId : Option (List Char)
  hgvs : Option (List Char)
  reviewStatus : Option (List Char)
  molecularConsequence : Option (List Char)
  origin : Option (List Char)
deriving DecidableEq

/-- Build the finding pushed for one accepted pair. -/
def mkFinding (rsid : List Char) (ud : UserRecord) (rec : ClinvarRecord) :
    Finding where
  rsid := rsid
  userGenotype := ud.genotype
  chromosome := if ud.chromosome ≠ [] then some ud.chromosome else rec.c
  position := if ud.position ≠ [] then some ud.position else rec.p
  gene := rec.g
  disease := rec.d
  clnsig := rec.s
  significance :=
    if rec.s == some clnsigFive then pathogenicLabel else likelyPathogenicLabel
  ref := rec.r
  alt := rec.a
  matchLabel := getMatchStatus (some ud.genotype) rec.r rec.a
  variationId := rec.v
  alleleId := rec.al
  hgvs := rec.h
  reviewStatus := rec.rv
  molecularConsequence := rec.mc
  origin := rec.o

/-- The mutable session state of `DNAReportApp` relevant to matching:
the loaded index, the parsed genotypes, and the accumulated findings. -/
structure AppState where
  clinvarIndex : List Char → Option ClinvarRecord
  userGenotypes : GenoMap
  findings : List Finding

/-- The body of the matching loop: skip identifiers absent from the
index or failing the match predicate; push a finding otherwise. -/
def matchStep (idx : List Char → Option ClinvarRecord)
    (acc : List Finding) (entry : List Char × UserRecord) : List Finding :=
  match idx entry.1 with
  | none => acc
  | some rec =>
    if genotypeMatchesRefAlt (some entry.2.genotype) rec.r rec.a then
      acc ++ [mkFinding entry.1 entry.2 rec]
    else acc

/-- `matchVariants` as a state transformer: it pushes the new findings
onto the instance field `findings`. -/
def matchVariants (s : AppState) : AppState :=
  { s with
    findings := s.userGenotypes.foldl (matchStep s.clinvarIndex) s.findings }

/-- The batch of findings computed from the two inputs alone. -/
def matchBatch (idx : List Char → Option ClinvarRecord) (genos : GenoMap) :
    List Finding :=
  genos.foldl (matchStep idx) []

/-- `matchStep` only appends to its accumulator. -/
theorem matchStep_append (idx : List Char → Option ClinvarRecord)
    (acc₁ acc₂ : List Finding) (e : List Char × UserRecord) :
    matchStep idx (acc₁ ++ acc₂) e = acc₁ ++ matchStep idx acc₂ e := by
  unfold matchStep
  rcases idx e.1 with _ | rec
  · rfl
  · by_cases hp : genotypeMatchesRefAlt (some e.2.genotype) rec.r rec.a = true
    · simp [hp]
    · simp [hp]

/-- The matching fold from any accumulator is the accumulator followed
by the batch computed from scratch. -/
theorem foldl_matchStep (idx : List Char → Option ClinvarRecord) :
    ∀ (genos : GenoMap) (acc : List Finding),
      genos.foldl (matchStep idx) acc = acc ++ matchBatch idx genos := by
  intro genos
  induction genos with
  | nil =>
    intro acc
    simp [matchBatch]
  | cons e gs ih =>
    intro acc
    rw [List.foldl_cons, ih (matchStep idx acc e)]
    have h1 : matchStep idx acc e = acc ++ matchStep idx [] e := by
      simpa using matchStep_append idx acc [] e
    have h2 : matchBatch idx (e :: gs)
        = matchStep idx [] e ++ matchBatch idx gs := by
      change List.foldl (matchStep idx) [] (e :: gs) = _
      rw [List.foldl_cons]
      exact ih (matchStep idx [] e)
    rw [h1, h2, List.append_assoc]

/-- C6 counterexample state: one indexed identifier with an accepted
genotype. -/
def rec0 : ClinvarRecord :=
  ⟨some ['A'], some ['G'], none, none, none, ['D'], some ['5'], none, none,
    none, none, none, none⟩

def idx0 : List Char → Option ClinvarRecord :=
  fun k => if k = ['r', 's', '1'] then some rec0 else none

def s0 : AppState :=
  ⟨idx0, [(['r', 's', '1'], ⟨['A', 'G'], [], []⟩)], []⟩

/-- C6 counterexample: invoking the matcher twice on the same instance
(with identical index and genotype inputs) does not reproduce identical
output — the findings accumulated by the first call are kept and the
batch is appended again. -/
theorem C6_counterexample :
    (matchVariants (matchVariants s0)).findings
      ≠ (matchVariants s0).findings := by
  decide

/-- C6 amended: each invocation appends a batch that is a pure function
of (index, genotypes) to the accumulated findings; starting from an
empty findings list the output is exactly that batch. -/
theorem C6_matchVariants_factorization :
    ∀ s : AppState,
      matchVariants s
          = { s with
              findings := s.findings ++ matchBatch s.clinvarIndex s.userGenotypes }
        ∧ (matchVariants { s with findings := [] }).findings
            = matchBatch s.clinvarIndex s.userGenotypes := by
  intro s
  constructor
  · unfold matchVariants
    rw [foldl_matchStep]
  · unfold matchVariants
    rw [foldl_matchStep]
    simp

/-- The branch chain can only produce the four zygosity labels. -/
theorem statusChain_mem :
    ∀ f1 f2 e1 e2 : Bool,
      statusChain f1 f2 e1 e2 = altAltLabel
        ∨ statusChain f1 f2 e1 e2 = refAltLabel
        ∨ statusChain f1 f2 e1 e2 = refRefLabel
        ∨ statusChain f1 f2 e1 e2 = otherLabel := by
  decide

/-- For every accepted pair, the computed label is one of the four
zygosity labels (never `Unknown`). -/
theorem getMatchStatus_of_accepted (ug r al : Option (List Char))
    (hm : genotypeMatchesRefAlt ug r al = true) :
    getMatchStatus ug r al = altAltLabel
      ∨ getMatchStatus ug r al = refAltLabel
      ∨ getMatchStatus ug r al = refRefLabel
      ∨ getMatchStatus ug r al = otherLabel := by
  cases ug with
  | none =>
    cases r <;> cases al <;> simp [genotypeMatchesRefAlt] at hm
  | some g =>
    cases r with
    | none => cases al <;> simp [genotypeMatchesRefAlt] at hm
    | some r =>
      cases al with
      | none => simp [genotypeMatchesRefAlt] at hm
      | some al =>
        rw [matches_eq_spec] at hm
        simp only [matchSpecC1] at hm
        simp at hm
        obtain ⟨⟨⟨⟨hA, hB⟩, hlen⟩, _⟩, _⟩ := hm
        have hg : g ≠ [] := by
          intro h
          subst h
          simp [extractAlleles, toUpperL] at hlen
        have hr : r ≠ [] := by
          intro h
          subst h
          simp [toUpperL, baseStrs] at hA
        have hal : al ≠ [] := by
          intro h
          subst h
          simp [altTokens, splitComma, splitOnP, toUpperL, baseStrs] at hB
        rcases hlist : extractAlleles g with _ | ⟨a1, _ | ⟨a2, _ | ⟨a3, rest⟩⟩⟩
        · rw [hlist] at hlen
          simp at hlen
        · rw [hlist] at hlen
          simp at hlen
        · have hstat : getMatchStatus (some g) (some r) (some al)
              = statusChain ((rawAltSet al).contains [a1])
                  ((rawAltSet al).contains [a2])
                  ([a1] == toUpperL r) ([a2] == toUpperL r) := by
            simp only [getMatchStatus, hlist]
            rw [if_neg (by simp [hg, hr, hal])]
            rfl
          rw [hstat]
          exact statusChain_mem _ _ _ _
        · rw [hlist] at hlen
          simp at hlen

/-- A finding in the matching fold comes from the accumulator or from
one accepted (identifier, record) pair. -/
theorem mem_matchFold (idx : List Char → Option ClinvarRecord) :
    ∀ (genos : GenoMap) (acc : List Finding) (f : Finding),
      f ∈ genos.foldl (matchStep idx) acc →
        f ∈ acc
          ∨ ∃ k ud rec, idx k = some rec
              ∧ genotypeMatchesRefAlt (some ud.genotype) rec.r rec.a = true
              ∧ f = mkFinding k ud rec := by
  intro genos
  induction genos with
  | nil =>
    intro acc f h
    exact Or.inl h
  | cons e gs ih =>
    intro acc f h
    rw [List.foldl_cons] at h
    rcases ih _ f h with hmem | hex
    · unfold matchStep at hmem
      rcases hidx : idx e.1 with _ | rec
      · simp only [hidx] at hmem
        exact Or.inl hmem
      · simp only [hidx] at hmem
        by_cases hp : genotypeMatchesRefAlt (some e.2.genotype) rec.r rec.a = true
        · rw [if_pos hp] at hmem
          rcases List.mem_append.mp hmem with h1 | h2
          · exact Or.inl h1
          · exact Or.inr ⟨e.1, e.2, rec, hidx, hp, by simpa using h2⟩
        · rw [if_neg hp] at hmem
          exact Or.inl hmem
    · exact Or.inr hex

/-- C10: every finding emitted by the matcher carries one of the four
zygosity labels and never `Unknown`. -/
theorem C10_emitted_labels :
    ∀ (idx : List Char → Option ClinvarRecord) (genos : GenoMap) (f : Finding),
      f ∈ matchBatch idx genos →
        (f.matchLabel = altAltLabel ∨ f.matchLabel = refAltLabel
          ∨ f.matchLabel = refRefLabel ∨ f.matchLabel = otherLabel)
          ∧ f.matchLabel ≠ unknownLabel := by
  intro idx genos f hf
  rcases mem_matchFold idx genos [] f hf with hmem | ⟨k, ud, rec, _, hp, hfe⟩
  · exact absurd hmem (by simp)
  · have hlab : f.matchLabel = getMatchStatus (some ud.genotype) rec.r rec.a := by
      rw [hfe]
      rfl
    have h4 := getMatchStatus_of_accepted (some ud.genotype) rec.r rec.a hp
    rw [← hlab] at h4
    refine ⟨h4, ?_⟩
    rcases h4 with h | h | h | h <;> rw [h] <;> decide

/-- C10 witness at a concrete accepted pair. -/
theorem C10_emitted_labels_witness :
    ((mkFinding ['r', 's', '1'] ⟨['A', 'G'], [], []⟩ rec0).matchLabel = altAltLabel
        ∨ (mkFinding ['r', 's', '1'] ⟨['A', 'G'], [], []⟩ rec0).matchLabel = refAltLabel
        ∨ (mkFinding ['r', 's', '1'] ⟨['A', 'G'], [], []⟩ rec0).matchLabel = refRefLabel
        ∨ (mkFinding ['r', 's', '1'] ⟨['A', 'G'], [], []⟩ rec0).matchLabel = otherLabel)
      ∧ (mkFinding ['r', 's', '1'] ⟨['A', 'G'], [], []⟩ rec0).matchLabel
          ≠ unknownLabel :=
  C10_emitted_labels idx0 [(['r', 's', '1'], ⟨['A', 'G'], [], []⟩)]
    (mkFinding ['r', 's', '1'] ⟨['A', 'G'], [], []⟩ rec0) (by decide)

/-! ### Report ordering (`generateReport`) -/

/-- Code-point lexicographic order on strings.  This models the
locale-aware `localeCompare` comparator, with which it agrees on the
ASCII disease names exercised by the spec. -/
def cmpLe : List Char → List Char → Bool
  | [], _ => true
  | _ :: _, [] => false
  | a :: as, b :: bs => if a = b then cmpLe as bs else decide (a < b)

/-- The report comparator: ascending by disease name. -/
def diseaseLe (f g : Finding) : Bool :=
  cmpLe f.disease g.disease

/-- Insert into a sorted list before the first element not `≤`-below
the new one (stable, like `Array.prototype.sort`). -/
def orderedIns {α : Type} (le : α → α → Bool) (a : α) : List α → List α
  | [] => [a]
  | b :: t => if le a b then a :: b :: t else b :: orderedIns le a t

/-- Stable insertion sort (extensionally the engine's stable sort). -/
def insSort {α : Type} (le : α → α → Bool) : List α → List α
  | [] => []
  | a :: t => orderedIns le a (insSort le t)

/-- `f.clnsig === '5'`. -/
def isPathogenicF (f : Finding) : Bool :=
  f.clnsig == some clnsigFive

/-- `f.clnsig === '4'`. -/
def isLikelyF (f : Finding) : Bool :=
  f.clnsig == some clnsigFour

/-- The ordered report list: pathogenic findings sorted by disease
name, then likely-pathogenic findings sorted by disease name. -/
def reportFindings (fs : List Finding) : List Finding :=
  insSort diseaseLe (fs.filter isPathogenicF)
    ++ insSort diseaseLe (fs.filter isLikelyF)

theorem perm_orderedIns {α : Type} (le : α → α → Bool) (a : α) :
    ∀ l : List α, (orderedIns le a l).Perm (a :: l) := by
  intro l
  induction l with
  | nil => exact List.Perm.refl _
  | cons b t ih =>
    unfold orderedIns
    by_cases h : le a b = true
    · rw [if_pos h]
    · rw [if_neg h]
      exact (List.Perm.cons b ih).trans (List.Perm.swap a b t)

theorem perm_insSort {α : Type} (le : α → α → Bool) :
    ∀ l : List α, (insSort le l).Perm l := by
  intro l
  induction l with
  | nil => exact List.Perm.refl _
  | cons a t ih =>
    unfold insSort
    exact (perm_orderedIns le a (insSort le t)).trans (List.Perm.cons a ih)

theorem mem_orderedIns {α : Type} (le : α → α → Bool) (a x : α) :
    ∀ l : List α, x ∈ orderedIns le a l → x = a ∨ x ∈ l := by
  intro l
  induction l with
  | nil =>
    intro h
    simp [orderedIns] at h
    exact Or.inl h
  | cons b t ih =>
    intro h
    unfold orderedIns at h
    by_cases hc : le a b = true
    · rw [if_pos hc] at h
      rcases List.mem_cons.mp h with rfl | h2
      · exact Or.inl rfl
      · exact Or.inr h2
    · rw [if_neg hc] at h
      rcases List.mem_cons.mp h with rfl | h2
      · exact Or.inr (List.mem_cons_self ..)
      · rcases ih h2 with rfl | h3
        · exact Or.inl rfl
        · exact Or.inr (List.mem_cons_of_mem b h3)

theorem pairwise_orderedIns {α : Type} (le : α → α → Bool)
    (htot : ∀ a b, le a b = true ∨ le b a = true)
    (htrans : ∀ a b c, le a b = true → le b c = true → le a c = true)
    (a : α) :
    ∀ l : List α, List.Pairwise (fun x y => le x y = true) l →
      List.Pairwise (fun x y => le x y = true) (orderedIns le a l) := by
  intro l
  induction l with
  | nil =>
    intro _
    simp [orderedIns]
  | cons b t ih =>
    intro hp
    unfold orderedIns
    by_cases h : le a b = true
    · rw [if_pos h]
      refine List.Pairwise.cons ?_ hp
      intro x hx
      rcases List.mem_cons.mp hx with rfl | hx2
      · exact h
      · exact htrans a b x h (List.rel_of_pairwise_cons hp hx2)
    · rw [if_neg h]
      rcases List.pairwise_cons.mp hp with ⟨hb, ht⟩
      refine List.Pairwise.cons ?_ (ih ht)
      intro x hx
      rcases mem_orderedIns le a x t hx with rfl | hx2
      · rcases htot x b with h1 | h1
        · exact absurd h1 h
        · exact h1
      · exact hb x hx2

theorem pairwise_insSort {α : Type} (le : α → α → Bool)
    (htot : ∀ a b, le a b = true ∨ le b a = true)
    (htrans : ∀ a b c, le a b = true → le b c = true → le a c = true) :
    ∀ l : List α, List.Pairwise (fun x y => le x y = true) (insSort le l) := by
  intro l
  induction l with
  | nil => exact List.Pairwise.nil
  | cons a t ih =>
    unfold insSort
    exact pairwise_orderedIns le htot htrans a _ ih

theorem cmpLe_total : ∀ a b : List Char, cmpLe a b = true ∨ cmpLe b a = true := by
  intro a
  induction a with
  | nil =>
    intro b
    exact Or.inl rfl
  | cons x xs ih =>
    intro b
    cases b with
    | nil => exact Or.inr rfl
    | cons y ys =>
      unfold cmpLe
      by_cases h : x = y
      · subst h
        rw [if_pos rfl, if_pos rfl]
        exact ih ys
      · rw [if_neg h, if_neg (Ne.symm h)]
        rcases lt_trichotomy x y with hlt | heq | hgt
        · exact Or.inl (by simp [hlt])
        · exact absurd heq h
        · exact Or.inr (by simp [hgt])

theorem cmpLe_trans : ∀ a b c : List Char,
    cmpLe a b = true → cmpLe b c = true → cmpLe a c = true := by
  intro a
  induction a with
  | nil =>
    intro b c _ _
    rfl
  | cons x xs ih =>
    intro b c hab hbc
    cases b with
    | nil => simp [cmpLe] at hab
    | cons y ys =>
      cases c with
      | nil => simp [cmpLe] at hbc
      | cons z zs =>
        unfold cmpLe at hab hbc ⊢
        by_cases hxy : x = y
        · subst hxy
          rw [if_pos rfl] at hab
          by_cases hyz : x = z
          · subst hyz
            rw [if_pos rfl] at hbc
            rw [if_pos rfl]
            exact ih ys zs hab hbc
          · rw [if_neg hyz] at hbc
            rw [if_neg hyz]
            exact hbc
        · rw [if_neg hxy] at hab
          have hxylt : x < y := by simpa using hab
          by_cases hyz : y = z
          · subst hyz
            rw [if_neg hxy]
            simpa using hxylt
          · rw [if_neg hyz] at hbc
            have hyzlt : y < z := by simpa using hbc
            have hxz : x < z := lt_trans hxylt hyzlt
            rw [if_neg (ne_of_lt hxz)]
            simpa using hxz

theorem diseaseLe_total : ∀ f g : Finding,
    diseaseLe f g = true ∨ diseaseLe g f = true :=
  fun f g => cmpLe_total f.disease g.disease

theorem diseaseLe_trans : ∀ f g h : Finding,
    diseaseLe f g = true → diseaseLe g h = true → diseaseLe f h = true :=
  fun f g h => cmpLe_trans f.disease g.disease h.disease

/-- A pathogenic finding is not a likely-pathogenic one. -/
theorem path_not_likely (f : Finding) (h : isPathogenicF f = true) :
    isLikelyF f = false := by
  simp only [isPathogenicF, beq_iff_eq] at h
  simp [isLikelyF, h, clnsigFive, clnsigFour]

/-- A likely-pathogenic finding is not a pathogenic one. -/
theorem likely_not_path (f : Finding) (h : isLikelyF f = true) :
    isPathogenicF f = false := by
  simp only [isLikelyF, beq_iff_eq] at h
  simp [isPathogenicF, h, clnsigFive, clnsigFour]

/-- A minimal finding with the given classification code and disease
name (other fields blank), for the ordering example. -/
def exFinding (sg : List Char) (ds : List Char) : Finding :=
  ⟨[], [], none, none, none, ds, some sg, [], none, none, [], none, none,
    none, none, none, none⟩

def exPathAlpha : Finding := exFinding clnsigFive ['A', 'l', 'p', 'h', 'a']
def exPathMu : Finding := exFinding clnsigFive ['M', 'u']
def exLikelyZeta : Finding := exFinding clnsigFour ['Z', 'e', 't', 'a']

/-- C7: the report list is a permutation of the pathogenic findings
followed by the likely-pathogenic ones; no likely-pathogenic finding
precedes a pathogenic one, and within each classification group the
list ascends by disease name; the spec's three-finding example is
ordered as claimed. -/
theorem C7_report_order :
    (∀ fs : List Finding,
      (reportFindings fs).Perm
          (fs.filter isPathogenicF ++ fs.filter isLikelyF)
        ∧ List.Pairwise
            (fun f g =>
              (isLikelyF f = true → isPathogenicF g = false)
                ∧ (isPathogenicF f = isPathogenicF g → diseaseLe f g = true))
            (reportFindings fs))
      ∧ reportFindings [exLikelyZeta, exPathAlpha, exPathMu]
          = [exPathAlpha, exPathMu, exLikelyZeta] := by
  constructor
  · intro fs
    constructor
    · exact (perm_insSort diseaseLe _).append (perm_insSort diseaseLe _)
    · have hmemA : ∀ x ∈ insSort diseaseLe (fs.filter isPathogenicF),
          isPathogenicF x = true := fun x hx =>
        (List.mem_filter.mp ((perm_insSort diseaseLe _).subset hx)).2
      have hmemB : ∀ x ∈ insSort diseaseLe (fs.filter isLikelyF),
          isLikelyF x = true := fun x hx =>
        (List.mem_filter.mp ((perm_insSort diseaseLe _).subset hx)).2
      rw [reportFindings, List.pairwise_append]
      refine ⟨?_, ?_, ?_⟩
      · refine (pairwise_insSort diseaseLe diseaseLe_total diseaseLe_trans
            _).imp_of_mem ?_
        intro f g hf hg hle
        refine ⟨fun hlik => ?_, fun _ => hle⟩
        exact absurd hlik (by simp [path_not_likely f (hmemA f hf)])
      · refine (pairwise_insSort diseaseLe diseaseLe_total diseaseLe_trans
            _).imp_of_mem ?_
        intro f g hf hg hle
        exact ⟨fun _ => likely_not_path g (hmemB g hg), fun _ => hle⟩
      · intro f hf g hg
        refine ⟨fun hlik => ?_, fun heq => ?_⟩
        · exact absurd hlik (by simp [path_not_likely f (hmemA f hf)])
        · rw [hmemA f hf, likely_not_path g (hmemB g hg)] at heq
          exact absurd heq (by simp)
  · decide

/-- C6 amended, instantiated at the counterexample state (its statement
is hypothesis-free, but we record a concrete instance as well). -/
theorem C6_matchVariants_factorization_witness :
    matchVariants s0
        = { s0 with
            findings := s0.findings ++ matchBatch s0.clinvarIndex s0.userGenotypes } :=
  (C6_matchVariants_factorization s0).1

-- sanity checks of the parser on concrete inputs
example :
    parse23andMeFile
        ['r', 's', 'i', 'd', '\t', 'g', 'e', 'n', 'o', 't', 'y', 'p', 'e', '\n',
          'r', 's', '1', '\t', 'A', 'G', 'G']
      = .ok [(['r', 's', '1'], ⟨['A', 'G', 'G'], [], []⟩)] := by decide
example :
    parse23andMeFile
        ['#', ' ', 'r', 's', 'i', 'd', ' ', 'c', 'h', 'r', 'o', 'm', 'o', 's',
          'o', 'm', 'e', ' ', 'p', 'o', 's', 'i', 't', 'i', 'o', 'n', ' ', 'g',
          'e', 'n', 'o', 't', 'y', 'p', 'e', '\n', 'r', 's', '4', '9', '8', '8',
          '2', '3', '5', ' ', '2', ' ', '1', '3', '6', '6', '0', '8', '6', '4',
          '6', ' ', 'A', 'G']
      = .ok [(['r', 's', '4', '9', '8', '8', '2', '3', '5'],
          ⟨['A', 'G'], ['2'], ['1', '3', '6', '6', '0', '8', '6', '4', '6']⟩)] := by
  decide
example :
    parse23andMeFile
        ['r', 's', 'i', 'd', 'n', 'u', 'm', ' ', 'r', 's', 'i', 'd', ' ', 'g',
          'e', 'n', 'o', 't', 'y', 'p', 'e']
      = .ok [] := by decide
example :
    parse23andMeFile
        ['r', 's', 'i', 'd', '\t', 'g', 'e', 'n', 'o', 't', 'y', 'p', 'e', '\n',
          'R', 'S', '1', '\t', 'A', 'G']
      = .ok [(['r', 's', '1'], ⟨['A', 'G'], [], []⟩)] := by decide
example :
    parse23andMeFile
        ['r', 's', 'i', 'd', '\t', 'g', 'e', 'n', 'o', 't', 'y', 'p', 'e', '\n',
          'r', 's', '1', '\t', '-', '-']
      = .ok [] := by decide
example :
    parse23andMeFile ['h', 'e', 'l', 'l', 'o'] = .error .noHeaderFound := by
  decide
example : genotypeMatchesRefAlt (some ['A', 'G']) (some ['A']) (some ['G']) = true := by decide
example : genotypeMatchesRefAlt (some ['A', 'A']) (some ['A']) (some ['G']) = false := by decide
example : genotypeMatchesRefAlt (some ['G', 'T']) (some ['A']) (some ['G', ',', 'T']) = true := by decide
example : getMatchStatus (some ['G', 'T']) (some ['A']) (some ['G', ',', 'T']) = altAltLabel := by decide
example : getMatchStatus (some ['A', 'G']) (some ['A']) (some ['G']) = refAltLabel := by decide
example : extractAlleles ('a' :: 'g' :: []) = ['A', 'G'] := by decide
example : trimL [' ', 'r', 's', '\t'] = ['r', 's'] := by decide
example : splitComma ['G', ',', 'T'] = [['G'], ['T']] := by decide
example : isInfixL ['g', 'e'] ['a', 'g', 'e', 'x'] = true := by decide

end DNAReport
